import Mathlib

/-!
# Verification of the caddy-cache core (handler.go, streamed_recorder.go)

A shallow embedding of the caching middleware's pure logic:

* HTTP header maps are association lists `List (String × List String)`,
  looked up by first matching key (Go map semantics: keys are unique in
  maps produced by `net/http`, which we carry as hypotheses where needed).
* `matchesRequest`, `AddStatusHeaderIfConfigured`,
  `RemoveStatusHeaderIfConfigured`, `HandleCachedResponse` and
  `HandleNonCachedResponse` are translated from `handler.go`.
* `StreamedRecorder` (from `streamed_recorder.go`) is modelled as a state
  machine over the upstream handler's operations, producing a trace of
  events: sends on the header/body channels and writes to the downstream
  client, in the order the Go code performs them.
* `MemoryData` (the in-memory storage buffer) is modelled with its byte
  vector and closed flag; the snapshot reader returned after `Close` is
  `bytes.NewReader`, embedded as `snapshotRead`.
* The per-key single-flight lock lives in `cache.go`, which is not part of
  the sources; it is modelled from the spec as a transition system
  (`SingleFlight` namespace below).
-/

namespace CaddyCache

/-- HTTP header map: association list from header name to value list,
mirroring Go's `http.Header` (`map[string][]string`). -/
abbrev HeaderMap := List (String × List String)

/-- Go map lookup `m[k]`: `some vs` when the key is present, `none`
otherwise (Go returns `nil` with `ok=false`). -/
def hdrLookup (m : HeaderMap) (k : String) : Option (List String) :=
  (m.find? (fun kv => kv.1 == k)).map (fun kv => kv.2)

/-- `http.Header.Set`: replace all values of `k` by the single value `v`. -/
def hdrSet (m : HeaderMap) (k v : String) : HeaderMap :=
  (m.filter (fun kv => !(kv.1 == k))) ++ [(k, [v])]

/-- `http.Header.Add`: append `v` to the values of `k`, creating the key
if absent. -/
def hdrAdd (m : HeaderMap) (k v : String) : HeaderMap :=
  match m.find? (fun kv => kv.1 == k) with
  | some _ => m.map (fun kv => if kv.1 == k then (kv.1, kv.2 ++ [v]) else kv)
  | none => m ++ [(k, [v])]

/-- Go `delete(headers, k)`. -/
def hdrDel (m : HeaderMap) (k : String) : HeaderMap :=
  m.filter (fun kv => !(kv.1 == k))

/-- `Request` of the cache entry (handler.go): the inbound header map
snapshot. -/
structure Request where
  HeaderMap : HeaderMap
deriving DecidableEq

/-- `Response` of the cache entry (handler.go): stored headers, status
code, and whether a body buffer reference is present. -/
structure Response where
  HeaderMap : HeaderMap
  Code : Nat
  hasBody : Bool
deriving DecidableEq

/-- `HttpCacheEntry` (cache.go declaration, fields as used by handler.go):
visibility flag, absolute expiration time (seconds), stored request and
response. -/
structure HttpCacheEntry where
  isPublic : Bool
  Expiration : Nat
  Request : Request
  Response : Response
deriving DecidableEq

/-- Go's `strings.Split(s, ",")` over the character list (structural, so
that witnesses can be checked by evaluation). `Split("") = [""]`. -/
def splitCommaChars : List Char → List (List Char)
  | [] => [[]]
  | c :: rest =>
    match splitCommaChars rest with
    | [] => if c = ',' then [[], []] else [[c]]
    | g :: gs => if c = ',' then [] :: g :: gs else (c :: g) :: gs

/-- Go's `strings.Split(s, ",")`. -/
def goSplitComma (s : String) : List String :=
  (splitCommaChars s.data).map (fun g => String.mk g)

/-- Go's `strings.TrimSpace`: drop whitespace at both ends. -/
def goTrim (s : String) : String :=
  String.mk
    (((s.data.dropWhile Char.isWhitespace).reverse.dropWhile
        Char.isWhitespace).reverse)

/-- `matchesRequest` from handler.go: an entry matches the current request
headers `r` when either its response has no `Vary` header, or for every
comma-separated, whitespace-trimmed name in the first `Vary` value the
stored request's value list for that name `reflect.DeepEqual`s the current
request's value list. (`vary[0]` in Go would panic on a present-but-empty
value list; the embedding reads it as `""` via `headD`.) -/
def matchesRequest (r : HeaderMap) (entry : HttpCacheEntry) : Bool :=
  match hdrLookup entry.Response.HeaderMap "Vary" with
  | none => true
  | some vary =>
    (goSplitComma (vary.headD "")).all (fun searchedHeader =>
      hdrLookup entry.Request.HeaderMap (goTrim searchedHeader)
        == hdrLookup r (goTrim searchedHeader))

end CaddyCache

namespace CaddyCache

/-! ## In-memory storage buffer (streamed_recorder.go, MemoryData) -/

/-- `DataContainer` (streamed_recorder.go): the growable byte vector; its
`RWMutex` is concurrency plumbing with no pure content. Bytes are `Nat`. -/
structure DataContainer where
  data : List Nat
deriving DecidableEq

/-- `MemoryData` (streamed_recorder.go): the broadcastable in-memory
buffer. The subscriber list holds signal channels; the pure model keeps
only its length, since signals carry no data. -/
structure MemoryData where
  content : DataContainer
  subscriberCount : Nat
  isClosed : Bool
deriving DecidableEq

/-- `MemoryData.Write`: append `p` to the byte vector, signal every
subscriber asynchronously, and return `(len(p), nil)`. The error is
`none`: the Go function has no error path. -/
def MemoryData.Write (buff : MemoryData) (p : List Nat) :
    MemoryData × Nat × Option String :=
  ({ buff with content := ⟨buff.content.data ++ p⟩ }, p.length, none)

/-- `MemoryData.Close`: mark the buffer closed (and close every
subscriber's signal channel, an event with no pure content). Returns nil. -/
def MemoryData.Close (buff : MemoryData) : MemoryData × Option String :=
  ({ buff with isClosed := true }, none)

/-- A reader handed out by `MemoryData.GetReader`: either a
`bytes.Reader` snapshot (closed buffer) or a subscribed `ContentReader`
(open buffer) holding its offset into the shared byte vector. -/
inductive GoReader where
  | snapshot (data : List Nat) (off : Nat)
  | subscriber (data : List Nat) (off : Nat)
deriving DecidableEq

/-- `MemoryData.GetReader`: on a closed buffer return
`bytes.NewReader(buff.content.data[0:])`; on an open buffer register and
return a new `ContentReader` at offset 0. -/
def MemoryData.GetReader (buff : MemoryData) : GoReader × MemoryData :=
  if buff.isClosed then
    (.snapshot buff.content.data 0, buff)
  else
    (.subscriber buff.content.data 0,
     { buff with subscriberCount := buff.subscriberCount + 1 })

/-- One `bytes.Reader.Read` call with destination capacity `cap`:
returns the bytes copied, the count `n`, and whether `io.EOF` was
returned (Go returns EOF exactly when the offset has reached the end). -/
def snapshotRead (data : List Nat) (off cap : Nat) :
    List Nat × Nat × Bool :=
  if data.length ≤ off then ([], 0, true)
  else
    let n := min cap (data.length - off)
    ((data.drop off).take n, n, false)

/-- Reading a snapshot reader to exhaustion with a destination buffer of
capacity `cap`: concatenate successive `snapshotRead` results until EOF. -/
def drainSnapshot (data : List Nat) (cap : Nat) (off : Nat) : List Nat :=
  if h : data.length ≤ off then []
  else if hcap : cap = 0 then []
  else
    (data.drop off).take (min cap (data.length - off)) ++
      drainSnapshot data cap (off + min cap (data.length - off))
termination_by data.length - off
decreasing_by
  simp only [not_le] at h
  have h1 : 1 ≤ min cap (data.length - off) := by
    have hc1 : 1 ≤ cap := Nat.one_le_iff_ne_zero.mpr hcap
    have hd1 : 1 ≤ data.length - off := Nat.le_sub_of_add_le (by omega)
    exact le_min hc1 hd1
  omega

/-- Writing a list of chunks in sequence through `MemoryData.Write`,
collecting each call's `(n, err)` result. -/
def writeAll (buff : MemoryData) : List (List Nat) →
    MemoryData × List (Nat × Option String)
  | [] => (buff, [])
  | p :: ps =>
    let r := MemoryData.Write buff p
    let rest := writeAll r.1 ps
    (rest.1, (r.2.1, r.2.2) :: rest.2)

lemma writeAll_state (buff : MemoryData) (chunks : List (List Nat)) :
    (writeAll buff chunks).1 =
      { buff with content := ⟨buff.content.data ++ chunks.flatten⟩ } := by
  induction chunks generalizing buff with
  | nil => simp [writeAll]
  | cons p ps ih =>
    simp [writeAll, MemoryData.Write, ih, List.append_assoc]

lemma writeAll_results (buff : MemoryData) (chunks : List (List Nat)) :
    (writeAll buff chunks).2 = chunks.map (fun p => (p.length, none)) := by
  induction chunks generalizing buff with
  | nil => simp [writeAll]
  | cons p ps ih => simp [writeAll, MemoryData.Write, ih]

lemma drainSnapshot_drop (data : List Nat) (cap : Nat) (hcap : 1 ≤ cap) :
    ∀ off, drainSnapshot data cap off = data.drop off := by
  have main : ∀ fuel off, data.length - off ≤ fuel →
      drainSnapshot data cap off = data.drop off := by
    intro fuel
    induction fuel with
    | zero =>
      intro off hoff
      have hle : data.length ≤ off := by omega
      rw [drainSnapshot]
      simp [hle, List.drop_eq_nil_of_le hle]
    | succ m ih =>
      intro off hoff
      by_cases hle : data.length ≤ off
      · rw [drainSnapshot]
        simp [hle, List.drop_eq_nil_of_le hle]
      · have hcap0 : ¬ cap = 0 := by omega
        rw [drainSnapshot, dif_neg hle, dif_neg hcap0]
        have h1 : 1 ≤ min cap (data.length - off) := by
          exact le_min hcap (by omega)
        rw [ih (off + min cap (data.length - off)) (by omega)]
        have hdd : data.drop (off + min cap (data.length - off)) =
            (data.drop off).drop (min cap (data.length - off)) := by
          rw [List.drop_drop]
        rw [hdd, List.take_append_drop]
  intro off
  exact main (data.length - off) off (le_refl _)

/-! ## Streamed recorder (streamed_recorder.go, StreamedRecorder)

The recorder is driven sequentially by the upstream handler's calls. Its
observable behaviour is the ordered trace of: sends on the header channel,
sends on the body channel, and calls into the downstream writer — exactly
in the order the Go statements perform them. -/

/-- `cloneHeader` (streamed_recorder.go): build a fresh header map whose
value slices are element-wise copies of the original's. -/
def cloneHeader (h : HeaderMap) : HeaderMap :=
  h.map (fun kv => (kv.1, kv.2.map (fun v => v)))

lemma cloneHeader_eq (h : HeaderMap) : cloneHeader h = h := by
  simp [cloneHeader]

/-- One observable event of the recorder: a `(status, headers)` send on
the header channel, a status write to the downstream writer, a chunk send
on the body channel, or a chunk write to the downstream writer. -/
inductive REvent where
  | headerEv (code : Nat) (hdr : HeaderMap)
  | dsStatus (code : Nat)
  | bodyEv (chunk : List Nat)
  | dsWrite (chunk : List Nat)
deriving DecidableEq

/-- Recorder state: the `wroteHeader` flag and the downstream writer's
current header map (`rw.w.Header()`, which `rw.Header()` aliases). -/
structure RecState where
  wroteHeader : Bool
  dsHeader : HeaderMap
deriving DecidableEq

/-- `StreamedRecorder.WriteHeader`: a no-op once `wroteHeader` is set;
otherwise set the flag, send `(code, cloneHeader(w.Header()))` on the
header channel, then write the status to the downstream. -/
def StreamedRecorder.WriteHeader (st : RecState) (code : Nat) :
    RecState × List REvent :=
  if st.wroteHeader then (st, [])
  else ({ st with wroteHeader := true },
        [.headerEv code (cloneHeader st.dsHeader), .dsStatus code])

/-- `StreamedRecorder.Write`: trigger `WriteHeader 200` if no header was
written yet, then send the chunk on the body channel, then write it to
the downstream writer. -/
def StreamedRecorder.Write (st : RecState) (buf : List Nat) :
    RecState × List REvent :=
  let r := if st.wroteHeader then (st, [])
           else StreamedRecorder.WriteHeader st 200
  (r.1, r.2 ++ [.bodyEv buf, .dsWrite buf])

/-- Operations the upstream handler can perform on its response sink:
set a header on `rw.Header()`, call `WriteHeader`, or call `Write`. -/
inductive RecOp where
  | setHeader (k v : String)
  | writeHeader (code : Nat)
  | write (buf : List Nat)
deriving DecidableEq

/-- Dispatch one upstream operation on the recorder. -/
def recStep (st : RecState) : RecOp → RecState × List REvent
  | .setHeader k v => ({ st with dsHeader := hdrSet st.dsHeader k v }, [])
  | .writeHeader c => StreamedRecorder.WriteHeader st c
  | .write b => StreamedRecorder.Write st b

/-- Run a sequence of upstream operations, concatenating the event
traces. -/
def recRun (st : RecState) : List RecOp → RecState × List REvent
  | [] => (st, [])
  | op :: ops =>
    let r1 := recStep st op
    let r2 := recRun r1.1 ops
    (r2.1, r1.2 ++ r2.2)

/-- Whether an operation triggers header delivery (an explicit
`WriteHeader` or any `Write`). -/
def isTrigger : RecOp → Bool
  | .setHeader _ _ => false
  | .writeHeader _ => true
  | .write _ => true

/-- Count of `(status, headers)` events sent on the header channel. -/
def countHeaderEv (t : List REvent) : Nat :=
  t.countP (fun e => match e with | .headerEv _ _ => true | _ => false)

/-- Count of status writes to the downstream writer. -/
def countDsStatus (t : List REvent) : Nat :=
  t.countP (fun e => match e with | .dsStatus _ => true | _ => false)

/-- Chunks sent on the body channel, in order. -/
def bodyChunks (t : List REvent) : List (List Nat) :=
  t.filterMap (fun e => match e with | .bodyEv b => some b | _ => none)

/-- Chunks written to the downstream writer, in order. -/
def dsChunks (t : List REvent) : List (List Nat) :=
  t.filterMap (fun e => match e with | .dsWrite b => some b | _ => none)

lemma recRun_counts (ops : List RecOp) : ∀ st : RecState,
    countHeaderEv (recRun st ops).2 =
      (if st.wroteHeader then 0 else if ops.any isTrigger then 1 else 0) ∧
    countDsStatus (recRun st ops).2 =
      (if st.wroteHeader then 0 else if ops.any isTrigger then 1 else 0) ∧
    (recRun st ops).1.wroteHeader = (st.wroteHeader || ops.any isTrigger) := by
  induction ops with
  | nil => intro st; simp [recRun, countHeaderEv, countDsStatus]
  | cons op ops ih =>
    intro st
    obtain ⟨ih1, ih2, ih3⟩ := ih (recStep st op).1
    cases op with
    | setHeader k v =>
      cases hw : st.wroteHeader <;>
        simp_all [recRun, recStep, countHeaderEv, countDsStatus,
          isTrigger, List.countP_append]
    | writeHeader c =>
      cases hw : st.wroteHeader <;>
        simp_all [recRun, recStep, StreamedRecorder.WriteHeader,
          countHeaderEv, countDsStatus, isTrigger, List.countP_append,
          List.countP_cons]
    | write b =>
      cases hw : st.wroteHeader <;>
        simp_all [recRun, recStep, StreamedRecorder.Write,
          StreamedRecorder.WriteHeader, countHeaderEv, countDsStatus,
          isTrigger, List.countP_append, List.countP_cons]

/-- The two trace-well-formedness facts used for the streaming order:
every take-prefix of the trace has its downstream chunks a prefix of its
body-channel chunks, and the full trace is balanced. -/
def StreamOrdered (t : List REvent) : Prop :=
  (∀ n, dsChunks (t.take n) <+: bodyChunks (t.take n)) ∧
    dsChunks t = bodyChunks t

lemma dsChunks_append (t1 t2 : List REvent) :
    dsChunks (t1 ++ t2) = dsChunks t1 ++ dsChunks t2 := by
  simp [dsChunks]

lemma bodyChunks_append (t1 t2 : List REvent) :
    bodyChunks (t1 ++ t2) = bodyChunks t1 ++ bodyChunks t2 := by
  simp [bodyChunks]

lemma dsChunks_take_nil (pre : List REvent) (n : Nat)
    (hd : dsChunks pre = []) : dsChunks (pre.take n) = [] := by
  have hsub := (List.take_sublist n pre).filterMap
    (fun e => match e with | REvent.dsWrite c => some c | _ => none)
  simp only [dsChunks] at hd ⊢
  rw [hd] at hsub
  exact List.sublist_nil.mp hsub

lemma streamOrdered_nil : StreamOrdered [] := by
  constructor
  · intro n; simp [dsChunks, bodyChunks]
  · rfl

lemma streamOrdered_append {t1 t2 : List REvent}
    (h1 : StreamOrdered t1) (h2 : StreamOrdered t2) :
    StreamOrdered (t1 ++ t2) := by
  obtain ⟨hp1, hb1⟩ := h1
  obtain ⟨hp2, hb2⟩ := h2
  constructor
  · intro n
    rw [List.take_append_eq_append_take, dsChunks_append, bodyChunks_append]
    by_cases hn : n ≤ t1.length
    · have h0 : n - t1.length = 0 := by omega
      simp only [h0, List.take_zero]
      have hds : dsChunks ([] : List REvent) = [] := rfl
      have hbs : bodyChunks ([] : List REvent) = [] := rfl
      rw [hds, hbs, List.append_nil, List.append_nil]
      exact hp1 n
    · have ht1 : t1.take n = t1 := List.take_of_length_le (by omega)
      rw [ht1, hb1]
      exact (List.prefix_append_right_inj _).mpr (hp2 (n - t1.length))
  · rw [dsChunks_append, bodyChunks_append, hb1, hb2]

lemma streamOrdered_block (b : List Nat) (pre : List REvent)
    (hpre : dsChunks pre = [] ∧ bodyChunks pre = []) :
    StreamOrdered (pre ++ [.bodyEv b, .dsWrite b]) := by
  obtain ⟨hd, hb⟩ := hpre
  constructor
  · intro n
    rw [List.take_append_eq_append_take, dsChunks_append, bodyChunks_append]
    by_cases hn : n ≤ pre.length
    · have h0 : n - pre.length = 0 := by omega
      simp only [h0, List.take_zero]
      rw [dsChunks_take_nil pre n hd]
      exact List.nil_prefix
    · have ht1 : pre.take n = pre := List.take_of_length_le (by omega)
      rw [ht1, hd, hb]
      simp only [List.nil_append]
      match n - pre.length with
      | 0 => exact List.nil_prefix
      | 1 =>
        show dsChunks [.bodyEv b] <+: bodyChunks [.bodyEv b]
        simp [dsChunks, bodyChunks]
      | m + 2 =>
        have hfull : ([REvent.bodyEv b, REvent.dsWrite b]).take (m + 2) =
            [REvent.bodyEv b, REvent.dsWrite b] :=
          List.take_of_length_le (by simp)
        rw [hfull]
        simp [dsChunks, bodyChunks]
  · rw [dsChunks_append, bodyChunks_append, hd, hb]
    simp [dsChunks, bodyChunks]

lemma streamOrdered_headerOnly (pre : List REvent)
    (hpre : dsChunks pre = [] ∧ bodyChunks pre = []) :
    StreamOrdered pre := by
  obtain ⟨hd, hb⟩ := hpre
  constructor
  · intro n
    rw [dsChunks_take_nil pre n hd]
    exact List.nil_prefix
  · rw [hd, hb]

lemma recStep_streamOrdered (st : RecState) (op : RecOp) :
    StreamOrdered (recStep st op).2 := by
  cases op with
  | setHeader k v => exact streamOrdered_headerOnly _ (by simp [recStep, dsChunks, bodyChunks])
  | writeHeader c =>
    by_cases hw : st.wroteHeader <;>
      exact streamOrdered_headerOnly _
        (by simp [recStep, StreamedRecorder.WriteHeader, hw, dsChunks, bodyChunks])
  | write b =>
    by_cases hw : st.wroteHeader
    · have he : (recStep st (.write b)).2 = [] ++ [.bodyEv b, .dsWrite b] := by
        simp [recStep, StreamedRecorder.Write, hw]
      rw [he]
      exact streamOrdered_block b [] (by simp [dsChunks, bodyChunks])
    · have he : (recStep st (.write b)).2 =
          [.headerEv 200 (cloneHeader st.dsHeader), .dsStatus 200] ++
            [.bodyEv b, .dsWrite b] := by
        simp [recStep, StreamedRecorder.Write,
          StreamedRecorder.WriteHeader, hw]
      rw [he]
      exact streamOrdered_block b _ (by simp [dsChunks, bodyChunks])

lemma recRun_streamOrdered (ops : List RecOp) : ∀ st : RecState,
    StreamOrdered (recRun st ops).2 := by
  induction ops with
  | nil => intro st; exact streamOrdered_nil
  | cons op ops ih =>
    intro st
    exact streamOrdered_append (recStep_streamOrdered st op)
      (ih (recStep st op).1)

/-! ## Header-map aliasing (cloneHeader, C9)

In Go, `rw.w.Header()` and the `*http.Header` carried by the header event
are distinct map objects once `cloneHeader` has run. We model the object
identity with a small heap: a list of header-map cells addressed by
index. `cloneHeader` allocates a fresh cell holding a copy of the source
cell's content. -/

/-- A heap of header-map objects; a reference is an index into `cells`. -/
structure HeaderHeap where
  cells : List HeaderMap
deriving DecidableEq

/-- Dereference a header-map pointer. -/
def heapGet (hp : HeaderHeap) (r : Nat) : Option HeaderMap :=
  hp.cells.get? r

/-- `cloneHeader` at the heap level (streamed_recorder.go): allocate a
fresh map object whose content is the element-wise copy of the map at
`w`, returning the new heap and the fresh reference. This is the
allocation `WriteHeader` performs for the header-channel event. -/
def allocClone (hp : HeaderHeap) (w : Nat) : HeaderHeap × Nat :=
  (⟨hp.cells ++ [cloneHeader (hp.cells.getD w [])]⟩, hp.cells.length)

/-- Mutate the header map object at reference `r` by `Header().Set(k, v)`
(the downstream writer's map in `WriteHeader`'s caller). -/
def heapSet (hp : HeaderHeap) (r : Nat) (k v : String) : HeaderHeap :=
  ⟨hp.cells.set r (hdrSet (hp.cells.getD r []) k v)⟩

lemma heapGet_allocClone (hp : HeaderHeap) (w : Nat) :
    heapGet (allocClone hp w).1 (allocClone hp w).2 =
      some (cloneHeader (hp.cells.getD w [])) := by
  simp [heapGet, allocClone, List.get?_concat_length]

lemma heapGet_heapSet_ne (hp : HeaderHeap) (r r' : Nat) (k v : String)
    (hne : r ≠ r') : heapGet (heapSet hp r k v) r' = heapGet hp r' := by
  simp only [heapGet, heapSet]
  exact List.get?_set_ne _ _ hne

/-! ## Header-map lookup lemmas -/

lemma find?_filter_not (m : HeaderMap) (k : String) :
    (m.filter (fun kv => !(kv.1 == k))).find? (fun kv => kv.1 == k) =
      none := by
  induction m with
  | nil => rfl
  | cons kv m ih =>
    by_cases h : kv.1 = k
    · simpa [List.filter_cons, h] using ih
    · have hb : (kv.1 == k) = false := by simp [h]
      simp [List.filter_cons, hb, List.find?, ih]

lemma find?_filter_other (m : HeaderMap) (k k' : String) (h : k' ≠ k) :
    (m.filter (fun kv => !(kv.1 == k))).find? (fun kv => kv.1 == k') =
      m.find? (fun kv => kv.1 == k') := by
  induction m with
  | nil => rfl
  | cons kv m ih =>
    by_cases h1 : kv.1 = k'
    · have hbk : (kv.1 == k) = false := by simp [h1, h]
      have hbk' : (kv.1 == k') = true := by simp [h1]
      simp [List.filter_cons, hbk, List.find?, hbk']
    · have hbk' : (kv.1 == k') = false := by simp [h1]
      have hkk : (k == k') = false := by
        simp
        exact fun he => h he.symm
      by_cases h2 : kv.1 = k
      · simp [List.filter_cons, h2, List.find?, hbk', hkk, ih]
      · have hbk : (kv.1 == k) = false := by simp [h2]
        simp [List.filter_cons, hbk, List.find?, hbk', ih]

lemma hdrLookup_set_self (m : HeaderMap) (k v : String) :
    hdrLookup (hdrSet m k v) k = some [v] := by
  simp [hdrLookup, hdrSet, List.find?_append, find?_filter_not, List.find?]

lemma hdrLookup_set_ne (m : HeaderMap) (k k' v : String) (h : k' ≠ k) :
    hdrLookup (hdrSet m k v) k' = hdrLookup m k' := by
  have hb : (k == k') = false := by
    simp [BEq.symm_false]
    exact fun he => h he.symm
  simp [hdrLookup, hdrSet, List.find?_append, find?_filter_other m k k' h,
    List.find?, hb]

lemma hdrAdd_map_fst (m : HeaderMap) (k v k' : String) :
    (m.map (fun kv => if kv.1 == k then (kv.1, kv.2 ++ [v]) else kv)).find?
        (fun kv => kv.1 == k') =
      (m.find? (fun kv => kv.1 == k')).map
        (fun kv => if kv.1 == k then (kv.1, kv.2 ++ [v]) else kv) := by
  rw [List.find?_map]
  have hpred : ((fun kv : String × List String => kv.1 == k') ∘
      fun kv : String × List String =>
        if kv.1 == k then (kv.1, kv.2 ++ [v]) else kv) =
      fun kv : String × List String => kv.1 == k' := by
    funext x
    simp only [Function.comp_apply]
    by_cases hx : (x.1 == k) = true
    · simp [hx]
    · simp [hx]
  rw [hpred]

lemma hdrLookup_add_self (m : HeaderMap) (k v : String) :
    hdrLookup (hdrAdd m k v) k =
      some ((hdrLookup m k).getD [] ++ [v]) := by
  unfold hdrAdd
  cases hf : m.find? (fun kv => kv.1 == k) with
  | none =>
    simp [hdrLookup, List.find?_append, hf, List.find?]
  | some kv0 =>
    have hk : kv0.1 = k := by
      have h0 := List.find?_some hf
      simpa using h0
    simp only [hdrLookup]
    rw [hdrAdd_map_fst, hf]
    simp [hk]

lemma hdrLookup_add_ne (m : HeaderMap) (k k' v : String) (h : k' ≠ k) :
    hdrLookup (hdrAdd m k v) k' = hdrLookup m k' := by
  unfold hdrAdd
  cases hf : m.find? (fun kv => kv.1 == k) with
  | none =>
    have hb : (k == k') = false := by
      simp
      exact fun he => h he.symm
    simp [hdrLookup, List.find?_append, List.find?, hb]
  | some kv0 =>
    rw [hdrLookup, hdrAdd_map_fst]
    cases hf' : m.find? (fun kv => kv.1 == k') with
    | none => simp [hdrLookup, hf']
    | some kv1 =>
      have hk1 : kv1.1 = k' := by
        have h0 := List.find?_some hf'
        simpa using h0
      have hK : ¬ kv1.1 = k := by rw [hk1]; exact h
      simp [hdrLookup, hf', hK]

lemma hdrLookup_none_of_not_mem (m : HeaderMap) (k : String)
    (h : k ∉ m.map Prod.fst) : hdrLookup m k = none := by
  induction m with
  | nil => rfl
  | cons kv m ih =>
    simp only [List.map_cons, List.mem_cons, not_or] at h
    have hb : (kv.1 == k) = false := by
      simp
      exact fun he => h.1 he.symm
    simp only [hdrLookup, List.find?, hb]
    exact ih h.2

/-! ## Handler configuration and status-header helpers (handler.go) -/

/-- `Config` (fields consulted by the embedded handler functions; the
cache rules and max-age feed `getCacheableStatus`, which is an oracle
input here). -/
structure Config where
  statusHeader : String
deriving DecidableEq

/-- `AddStatusHeaderIfConfigured` (handler.go): `w.Header().Set(name,
status)` when a status header name is configured. -/
def AddStatusHeaderIfConfigured (cfg : Config) (w : HeaderMap)
    (status : String) : HeaderMap :=
  if cfg.statusHeader ≠ "" then hdrSet w cfg.statusHeader status else w

/-- `RemoveStatusHeaderIfConfigured` (handler.go): delete the configured
status header from a header map. Defined in the source but never invoked
by it. -/
def RemoveStatusHeaderIfConfigured (cfg : Config) (headers : HeaderMap) :
    HeaderMap :=
  if cfg.statusHeader ≠ "" then hdrDel headers cfg.statusHeader else headers

/-- The nested loop of `HandleCachedResponse` adding every stored header
value to the downstream writer's map via `w.Header().Add`. -/
def addAllHeaders (w : HeaderMap) (stored : HeaderMap) : HeaderMap :=
  stored.foldl (fun acc kv => kv.2.foldl (fun a v => hdrAdd a kv.1 v) acc) w

/-- `HandleCachedResponse` (handler.go), projected to its effect on the
downstream header map and returned status code: annotate `hit`, add all
stored response headers, write the stored status code (the body copy is
the storage reader's concern). -/
def HandleCachedResponse (cfg : Config) (w : HeaderMap)
    (previous : HttpCacheEntry) : HeaderMap × Nat :=
  (addAllHeaders (AddStatusHeaderIfConfigured cfg w "hit")
     previous.Response.HeaderMap,
   previous.Response.Code)

lemma hdrLookup_addValues_self (k : String) (vs : List String) :
    ∀ acc : HeaderMap,
      hdrLookup (vs.foldl (fun a v => hdrAdd a k v) acc) k =
        (if vs.isEmpty then hdrLookup acc k
         else some ((hdrLookup acc k).getD [] ++ vs)) := by
  induction vs with
  | nil => intro acc; simp
  | cons v vs ih =>
    intro acc
    rw [List.foldl_cons, ih (hdrAdd acc k v)]
    by_cases hvs : vs.isEmpty = true
    · have hvs0 : vs = [] := by simpa [List.isEmpty_iff] using hvs
      subst hvs0
      simp [hdrLookup_add_self]
    · simp only [hvs, if_false, List.isEmpty_cons, Bool.false_eq_true]
      rw [hdrLookup_add_self]
      simp

lemma hdrLookup_addValues_ne (k k' : String) (h : k' ≠ k)
    (vs : List String) : ∀ acc : HeaderMap,
      hdrLookup (vs.foldl (fun a v => hdrAdd a k v) acc) k' =
        hdrLookup acc k' := by
  induction vs with
  | nil => intro acc; rfl
  | cons v vs ih =>
    intro acc
    rw [List.foldl_cons, ih (hdrAdd acc k v), hdrLookup_add_ne _ _ _ _ h]

lemma hdrLookup_addAllHeaders (stored : HeaderMap) (name : String) :
    ∀ acc : HeaderMap, (stored.map Prod.fst).Nodup →
      (∀ kv ∈ stored, kv.2 ≠ []) →
      hdrLookup (addAllHeaders acc stored) name =
        (match hdrLookup stored name with
         | some vs => some ((hdrLookup acc name).getD [] ++ vs)
         | none => hdrLookup acc name) := by
  induction stored with
  | nil => intro acc _ _; rfl
  | cons kv rest ih =>
    intro acc hnodup hvals
    simp only [List.map_cons, List.nodup_cons] at hnodup
    have hrest := ih (kv.2.foldl (fun a v => hdrAdd a kv.1 v) acc)
      hnodup.2 (fun x hx => hvals x (List.mem_cons_of_mem _ hx))
    rw [addAllHeaders, List.foldl_cons]
    rw [addAllHeaders] at hrest
    rw [hrest]
    by_cases hk : name = kv.1
    · have hlr : hdrLookup rest name = none := by
        apply hdrLookup_none_of_not_mem
        rw [hk]; exact hnodup.1
      have hl : hdrLookup (kv :: rest) name = some kv.2 := by
        have hb : (kv.1 == name) = true := by simp [hk]
        simp [hdrLookup, List.find?, hb]
      rw [hlr, hl]
      have hne : ¬ kv.2.isEmpty := by
        simpa [List.isEmpty_iff] using hvals kv (List.mem_cons_self kv rest)
      rw [hk, hdrLookup_addValues_self]
      simp [hne]
    · have hl : hdrLookup (kv :: rest) name = hdrLookup rest name := by
        have hb : (kv.1 == name) = false := by
          simp
          exact fun he => hk he.symm
        simp [hdrLookup, List.find?, hb]
      rw [hl, hdrLookup_addValues_ne kv.1 name hk]

/-! ## HandleNonCachedResponse (handler.go)

The function builds a recorder pipe, launches the upstream, receives the
header event, and branches on `getCacheableStatus` (cache.go, an oracle
input here) and `Cache.NewContent` (the storage backend, success modelled
as a boolean input). The embedding records, per branch: the status
annotation performed on the downstream map, the entry returned to
`GetOrSet`, whether any task consuming `pipe.BodyChannel()` is launched,
whether an end channel is returned, and whether an error is returned. -/

/-- Result of `getCacheableStatus` as consumed by
`HandleNonCachedResponse`: an error, or a cacheability verdict with an
expiration timestamp. -/
inductive CacheableOutcome where
  | err
  | ok (isCacheable : Bool) (expiration : Nat)
deriving DecidableEq

/-- Inputs of one `HandleNonCachedResponse` run. -/
structure NCInput where
  now : Nat
  reqHeaders : HeaderMap
  code : Nat
  headers : HeaderMap
  cacheable : CacheableOutcome
  newContentOk : Bool
deriving DecidableEq

/-- Observable outcome of one `HandleNonCachedResponse` run. -/
structure NCResult where
  annotated : Option String
  entry : Option HttpCacheEntry
  readsBodyChannel : Bool
  hasEndChannel : Bool
  isError : Bool
deriving DecidableEq

/-- `HandleNonCachedResponse` (handler.go). The default entry carries
`isPublic = false` and a one-hour expiration; the error branches return
`(nil, nil, err)`; the non-cacheable branch annotates `miss` and returns
the private entry without launching any reader of the body channel; the
cacheable branch builds the body writer and launches the goroutine that
ranges over `pipe.BodyChannel()` into it, returning the public entry and
the end channel. -/
def HandleNonCachedResponse (cfg : Config) (inp : NCInput) : NCResult :=
  match inp.cacheable with
  | .err => ⟨none, none, false, false, true⟩
  | .ok isCacheable expiration =>
    if !isCacheable then
      ⟨if cfg.statusHeader ≠ "" then some "miss" else none,
       some ⟨false, inp.now + 3600, ⟨inp.reqHeaders⟩,
         ⟨inp.headers, inp.code, false⟩⟩,
       false, false, false⟩
    else if !inp.newContentOk then
      ⟨none, none, false, false, true⟩
    else
      ⟨none,
       some ⟨true, expiration, ⟨inp.reqHeaders⟩,
         ⟨inp.headers, inp.code, true⟩⟩,
       true, true, false⟩

/-- Rendezvous semantics of `StreamedRecorder.Write` (streamed_recorder.go):
each chunk is sent on the unbuffered `bodyChannel` *before* the write to
the downstream client, so when no task receives from the body channel the
first send never completes and no chunk reaches the downstream writer. -/
def deliveredBodyChunks (res : NCResult) (chunks : List (List Nat)) :
    List (List Nat) :=
  if res.readsBodyChannel then chunks else []

/-- Modelled from the spec: the insertion decision of `get_or_compute`
(`Cache.GetOrSet` in cache.go, absent from src). All errors within
`compute_fn` prevent insertion; a non-nil returned entry is inserted. -/
def getOrSetInserts (res : NCResult) : Bool :=
  !res.isError && res.entry.isSome

end CaddyCache

namespace CaddyCache.SingleFlight

/-!
## Single-flight lock (spec §4.2, cache.go absent from src)

Modelled from the spec: `get_or_compute(key, matches, compute_fn)`
acquires an exclusive per-key lock, under it selects a matching public
fresh entry (serve) or invokes the upstream and inserts the produced
entry before releasing. One key is modelled; requests are indexed by
position in a phase list. All requests are assumed to match the entry the
first fetch inserts (the claim's "all match the same public fresh
entry"), and no expiry occurs during the window. A request in phase
`fetching` has the upstream handler invocation in progress. -/

/-- Where one request stands: before the lock, holding the lock and
inspecting the index, holding the lock with its upstream fetch running,
or finished. -/
inductive Phase where
  | waiting
  | deciding
  | fetching
  | done
deriving DecidableEq

/-- Global state: the per-key lock owner, whether a matching public fresh
entry is in the index, how many times the upstream handler has been
invoked, and each request's phase. -/
structure SFState where
  lock : Option Nat
  entryPresent : Bool
  upstreamCount : Nat
  reqs : List Phase
deriving DecidableEq

/-- Interleaving steps of the same-key requests. -/
inductive SFStep : SFState → SFState → Prop where
  | acquire (s : SFState) (i : Nat)
      (hi : s.reqs.get? i = some .waiting) (hl : s.lock = none) :
      SFStep s ⟨some i, s.entryPresent, s.upstreamCount,
        s.reqs.set i .deciding⟩
  | hit (s : SFState) (i : Nat)
      (hi : s.reqs.get? i = some .deciding) (hl : s.lock = some i)
      (he : s.entryPresent = true) :
      SFStep s ⟨none, true, s.upstreamCount, s.reqs.set i .done⟩
  | startFetch (s : SFState) (i : Nat)
      (hi : s.reqs.get? i = some .deciding) (hl : s.lock = some i)
      (he : s.entryPresent = false) :
      SFStep s ⟨some i, false, s.upstreamCount + 1,
        s.reqs.set i .fetching⟩
  | finishFetch (s : SFState) (i : Nat)
      (hi : s.reqs.get? i = some .fetching) (hl : s.lock = some i) :
      SFStep s ⟨none, true, s.upstreamCount, s.reqs.set i .done⟩

/-- Reflexive-transitive closure of the interleaving steps. -/
inductive SFReachable (s0 : SFState) : SFState → Prop where
  | refl : SFReachable s0 s0
  | step {s s' : SFState} :
      SFReachable s0 s → SFStep s s' → SFReachable s0 s'

/-- Initial state for `n` concurrent same-key requests: lock free, no
entry, upstream never invoked. -/
def SFInit (n : Nat) : SFState :=
  ⟨none, false, 0, List.replicate n .waiting⟩

/-- The inductive invariant: the lock discipline (any request inspecting
or fetching owns the lock), fetches happen only while the entry is
absent, the upstream invocation count is determined by the
entry/fetching status, the request count is fixed, and a finished request
implies the entry is present. -/
def Inv (n : Nat) (s : SFState) : Prop :=
  s.reqs.length = n ∧
  (∀ i p, s.reqs.get? i = some p →
    (p = .deciding ∨ p = .fetching) → s.lock = some i) ∧
  (∀ i, s.reqs.get? i = some .fetching → s.entryPresent = false) ∧
  (s.entryPresent = true → s.upstreamCount = 1) ∧
  ((∃ i, s.reqs.get? i = some .fetching) → s.upstreamCount = 1) ∧
  (s.entryPresent = false →
    (∀ i, ¬ s.reqs.get? i = some .fetching) → s.upstreamCount = 0) ∧
  (∀ i, s.reqs.get? i = some .done → s.entryPresent = true)

lemma get?_set_self' {α : Type} (l : List α) (i : Nat) (a : α)
    (h : i < l.length) : (l.set i a).get? i = some a := by
  induction l generalizing i with
  | nil => simp at h
  | cons x l ih =>
    cases i with
    | zero => rfl
    | succ j =>
      simp only [List.set_cons_succ, List.get?_cons_succ]
      exact ih j (by simpa using h)

lemma get?_set_other {α : Type} (l : List α) (i j : Nat) (a : α)
    (h : i ≠ j) : (l.set i a).get? j = l.get? j := by
  induction l generalizing i j with
  | nil => simp
  | cons x l ih =>
    cases i with
    | zero =>
      cases j with
      | zero => exact absurd rfl h
      | succ j' => rfl
    | succ i' =>
      cases j with
      | zero => rfl
      | succ j' =>
        simp only [List.set_cons_succ, List.get?_cons_succ]
        exact ih i' j' (fun he => h (by rw [he]))

lemma get?_replicate_eq {α : Type} (a : α) :
    ∀ n i (p : α), (List.replicate n a).get? i = some p → p = a := by
  intro n
  induction n with
  | zero => intro i p h; simp [List.replicate] at h
  | succ m ih =>
    intro i p h
    cases i with
    | zero =>
      rw [List.replicate_succ, List.get?_cons_zero] at h
      exact (Option.some.inj h).symm
    | succ j =>
      rw [List.replicate_succ, List.get?_cons_succ] at h
      exact ih j p h

lemma inv_init (n : Nat) : Inv n (SFInit n) := by
  refine ⟨by simp [SFInit], ?_, ?_, ?_, ?_, ?_, ?_⟩
  · intro i p hp hcrit
    have hw : p = Phase.waiting := get?_replicate_eq _ n i p hp
    rcases hcrit with h | h <;> rw [hw] at h <;> exact Phase.noConfusion h
  · intro i hp
    have hw := get?_replicate_eq _ n i _ hp
    exact Phase.noConfusion hw
  · intro h
    exact Bool.noConfusion h
  · rintro ⟨i, hi⟩
    exact Phase.noConfusion (get?_replicate_eq _ n i _ hi)
  · intro _ _
    rfl
  · intro i hp
    exact Phase.noConfusion (get?_replicate_eq _ n i _ hp)

lemma inv_step {n : Nat} {s s' : SFState} (hinv : Inv n s)
    (hstep : SFStep s s') : Inv n s' := by
  obtain ⟨hlen, hlock, hfetch, hcntE, hcntF, hcnt0, hdone⟩ := hinv
  cases hstep with
  | acquire i hi hl =>
    have hlt : i < s.reqs.length := (List.get?_eq_some.mp hi).1
    have hnocrit : ∀ j p, s.reqs.get? j = some p →
        ¬ (p = .deciding ∨ p = .fetching) := by
      intro j p hp hcrit
      have hj := hlock j p hp hcrit
      rw [hl] at hj
      exact Option.noConfusion hj
    refine ⟨(List.length_set _ _ _).trans hlen, ?_, ?_, ?_, ?_, ?_, ?_⟩
    · intro j p hp hcrit
      by_cases hij : i = j
      · subst hij
        rfl
      · rw [get?_set_other _ _ _ _ hij] at hp
        exact absurd hcrit (hnocrit j p hp)
    · intro j hp
      by_cases hij : i = j
      · subst hij
        rw [get?_set_self' _ _ _ hlt] at hp
        exact Phase.noConfusion (Option.some.inj hp)
      · rw [get?_set_other _ _ _ _ hij] at hp
        exact absurd (Or.inr rfl) (hnocrit j _ hp)
    · exact hcntE
    · rintro ⟨j, hj⟩
      by_cases hij : i = j
      · subst hij
        rw [get?_set_self' _ _ _ hlt] at hj
        exact absurd (Option.some.inj hj) (by simp)
      · rw [get?_set_other _ _ _ _ hij] at hj
        exact absurd (Or.inr rfl) (hnocrit j _ hj)
    · intro he hnof
      refine hcnt0 he ?_
      intro j hj
      exact hnocrit j _ hj (Or.inr rfl)
    · intro j hp
      by_cases hij : i = j
      · subst hij
        rw [get?_set_self' _ _ _ hlt] at hp
        exact Phase.noConfusion (Option.some.inj hp)
      · rw [get?_set_other _ _ _ _ hij] at hp
        exact hdone j hp
  | hit i hi hl he =>
    have hlt : i < s.reqs.length := (List.get?_eq_some.mp hi).1
    have honlyi : ∀ j p, s.reqs.get? j = some p →
        (p = .deciding ∨ p = .fetching) → j = i := by
      intro j p hp hcrit
      have hj := hlock j p hp hcrit
      rw [hl] at hj
      exact (Option.some.inj hj).symm
    refine ⟨(List.length_set _ _ _).trans hlen, ?_, ?_, ?_, ?_, ?_, ?_⟩
    · intro j p hp hcrit
      by_cases hij : i = j
      · subst hij
        rw [get?_set_self' _ _ _ hlt] at hp
        have hpd := Option.some.inj hp
        rcases hcrit with h | h <;> rw [← hpd] at h <;>
          exact Phase.noConfusion h
      · rw [get?_set_other _ _ _ _ hij] at hp
        exact absurd (honlyi j _ hp hcrit) (fun he2 => hij he2.symm)
    · intro j hp
      by_cases hij : i = j
      · subst hij
        rw [get?_set_self' _ _ _ hlt] at hp
        exact Phase.noConfusion (Option.some.inj hp)
      · rw [get?_set_other _ _ _ _ hij] at hp
        exact absurd (honlyi j _ hp (Or.inr rfl))
          (fun he2 => hij he2.symm)
    · intro _
      exact hcntE he
    · intro _
      exact hcntE he
    · intro hfalse _
      exact Bool.noConfusion hfalse
    · intro j _
      rfl
  | startFetch i hi hl he =>
    have hlt : i < s.reqs.length := (List.get?_eq_some.mp hi).1
    have honlyi : ∀ j p, s.reqs.get? j = some p →
        (p = .deciding ∨ p = .fetching) → j = i := by
      intro j p hp hcrit
      have hj := hlock j p hp hcrit
      rw [hl] at hj
      exact (Option.some.inj hj).symm
    have hnof : ∀ j, ¬ s.reqs.get? j = some Phase.fetching := by
      intro j hj
      have hji := honlyi j _ hj (Or.inr rfl)
      subst hji
      rw [hi] at hj
      exact Phase.noConfusion (Option.some.inj hj)
    have hzero : s.upstreamCount = 0 := hcnt0 he hnof
    refine ⟨(List.length_set _ _ _).trans hlen, ?_, ?_, ?_, ?_, ?_, ?_⟩
    · intro j p hp hcrit
      by_cases hij : i = j
      · subst hij
        rfl
      · rw [get?_set_other _ _ _ _ hij] at hp
        exact absurd (honlyi j _ hp hcrit) (fun he2 => hij he2.symm)
    · intro j _
      rfl
    · intro hfalse
      exact Bool.noConfusion hfalse
    · intro _
      rw [hzero]
    · intro _ hnof'
      exact absurd (get?_set_self' _ _ Phase.fetching hlt) (hnof' i)
    · intro j hp
      by_cases hij : i = j
      · subst hij
        rw [get?_set_self' _ _ _ hlt] at hp
        exact Phase.noConfusion (Option.some.inj hp)
      · rw [get?_set_other _ _ _ _ hij] at hp
        have hT := hdone j hp
        rw [hT] at he
        exact Bool.noConfusion he
  | finishFetch i hi hl =>
    have hlt : i < s.reqs.length := (List.get?_eq_some.mp hi).1
    have honlyi : ∀ j p, s.reqs.get? j = some p →
        (p = .deciding ∨ p = .fetching) → j = i := by
      intro j p hp hcrit
      have hj := hlock j p hp hcrit
      rw [hl] at hj
      exact (Option.some.inj hj).symm
    have hone : s.upstreamCount = 1 := hcntF ⟨i, hi⟩
    refine ⟨(List.length_set _ _ _).trans hlen, ?_, ?_, ?_, ?_, ?_, ?_⟩
    · intro j p hp hcrit
      by_cases hij : i = j
      · subst hij
        rw [get?_set_self' _ _ _ hlt] at hp
        have hpd := Option.some.inj hp
        rcases hcrit with h | h <;> rw [← hpd] at h <;>
          exact Phase.noConfusion h
      · rw [get?_set_other _ _ _ _ hij] at hp
        exact absurd (honlyi j _ hp hcrit) (fun he2 => hij he2.symm)
    · intro j hp
      by_cases hij : i = j
      · subst hij
        rw [get?_set_self' _ _ _ hlt] at hp
        exact Phase.noConfusion (Option.some.inj hp)
      · rw [get?_set_other _ _ _ _ hij] at hp
        exact absurd (honlyi j _ hp (Or.inr rfl))
          (fun he2 => hij he2.symm)
    · intro _
      exact hone
    · intro _
      exact hone
    · intro hfalse _
      exact Bool.noConfusion hfalse
    · intro j _
      rfl

lemma inv_reachable {n : Nat} {s : SFState}
    (h : SFReachable (SFInit n) s) : Inv n s := by
  induction h with
  | refl => exact inv_init n
  | step _ hstep ih => exact inv_step ih hstep

end CaddyCache.SingleFlight

namespace CaddyCache

/-! ## Claim theorems -/

/-- C1: for every key and every set of concurrent same-key requests that
all match the same public fresh entry, in every reachable interleaving of
the spec-modelled per-key single-flight lock: at most one request has an
upstream fetch in progress at any instant, the upstream handler has been
invoked at most once, and once all requests are done (with at least one
request) it has been invoked exactly once. -/
theorem upstream_invoked_once_single_flight (n : Nat)
    (s : SingleFlight.SFState)
    (h : SingleFlight.SFReachable (SingleFlight.SFInit n) s) :
    (∀ i j, s.reqs.get? i = some .fetching →
      s.reqs.get? j = some .fetching → i = j) ∧
    s.upstreamCount ≤ 1 ∧
    ((∀ i p, s.reqs.get? i = some p → p = .done) → 1 ≤ n →
      s.upstreamCount = 1) := by
  obtain ⟨hlen, hlock, hfetch, hcntE, hcntF, hcnt0, hdone⟩ :=
    SingleFlight.inv_reachable h
  refine ⟨?_, ?_, ?_⟩
  · intro i j hi hj
    have h1 := hlock i _ hi (Or.inr rfl)
    have h2 := hlock j _ hj (Or.inr rfl)
    rw [h1] at h2
    exact Option.some.inj h2
  · by_cases hE : s.entryPresent = true
    · rw [hcntE hE]
    · by_cases hF : ∃ i, s.reqs.get? i = some SingleFlight.Phase.fetching
      · rw [hcntF hF]
      · push_neg at hF
        have hE' : s.entryPresent = false := by
          cases hb : s.entryPresent
          · rfl
          · exact absurd hb hE
        rw [hcnt0 hE' hF]
        exact Nat.zero_le 1
  · intro hall hn
    have hlt : 0 < s.reqs.length := by omega
    cases hg : s.reqs.get? 0 with
    | none =>
      have := List.get?_eq_none.mp hg
      omega
    | some p =>
      have hp := hall 0 p hg
      rw [hp] at hg
      exact hcntE (hdone 0 hg)

/-- C1 witness: a concrete complete interleaving of two same-key
requests — the first acquires, fetches and inserts; the second acquires
and hits — reaches the all-done state with exactly one upstream
invocation. -/
theorem upstream_invoked_once_single_flight_witness :
    SingleFlight.SFReachable (SingleFlight.SFInit 2)
      ⟨none, true, 1, [.done, .done]⟩ ∧
    ((∀ i j,
        (SingleFlight.SFState.mk none true 1 [.done, .done]).reqs.get? i =
          some .fetching →
        (SingleFlight.SFState.mk none true 1 [.done, .done]).reqs.get? j =
          some .fetching → i = j) ∧
      (SingleFlight.SFState.mk none true 1 [.done, .done]).upstreamCount ≤ 1 ∧
      ((∀ i p,
          (SingleFlight.SFState.mk none true 1 [.done, .done]).reqs.get? i =
            some p → p = .done) → 1 ≤ 2 →
        (SingleFlight.SFState.mk none true 1
          [.done, .done]).upstreamCount = 1)) := by
  have t1 : SingleFlight.SFStep (SingleFlight.SFInit 2)
      ⟨some 0, false, 0, [.deciding, .waiting]⟩ :=
    SingleFlight.SFStep.acquire _ 0 (by decide) rfl
  have t2 : SingleFlight.SFStep ⟨some 0, false, 0, [.deciding, .waiting]⟩
      ⟨some 0, false, 1, [.fetching, .waiting]⟩ :=
    SingleFlight.SFStep.startFetch _ 0 (by decide) rfl rfl
  have t3 : SingleFlight.SFStep ⟨some 0, false, 1, [.fetching, .waiting]⟩
      ⟨none, true, 1, [.done, .waiting]⟩ :=
    SingleFlight.SFStep.finishFetch _ 0 (by decide) rfl
  have t4 : SingleFlight.SFStep ⟨none, true, 1, [.done, .waiting]⟩
      ⟨some 1, true, 1, [.done, .deciding]⟩ :=
    SingleFlight.SFStep.acquire _ 1 (by decide) rfl
  have t5 : SingleFlight.SFStep ⟨some 1, true, 1, [.done, .deciding]⟩
      ⟨none, true, 1, [.done, .done]⟩ :=
    SingleFlight.SFStep.hit _ 1 (by decide) rfl rfl
  have hreach : SingleFlight.SFReachable (SingleFlight.SFInit 2)
      ⟨none, true, 1, [.done, .done]⟩ :=
    ((((SingleFlight.SFReachable.refl.step t1).step t2).step t3).step
      t4).step t5
  exact ⟨hreach, upstream_invoked_once_single_flight 2 _ hreach⟩

/-- C2: evaluated at a non-cacheable upstream response
(`Cache-Control: private`) with a nonempty body and a configured status
header, `HandleNonCachedResponse` annotates `miss` and returns an
`isPublic = false` entry — but, contrary to the claim, launches no task
reading the recorder's body channel, so under the rendezvous semantics of
`StreamedRecorder.Write` the downstream receives none of the body chunks. -/
theorem nonCacheable_branch_launches_no_drainer :
    (HandleNonCachedResponse ⟨"Cache-Status"⟩
      ⟨0, [], 200, [("Cache-Control", ["private"])],
        .ok false 0, true⟩).annotated = some "miss" ∧
    Option.map HttpCacheEntry.isPublic
      (HandleNonCachedResponse ⟨"Cache-Status"⟩
        ⟨0, [], 200, [("Cache-Control", ["private"])],
          .ok false 0, true⟩).entry = some false ∧
    (HandleNonCachedResponse ⟨"Cache-Status"⟩
      ⟨0, [], 200, [("Cache-Control", ["private"])],
        .ok false 0, true⟩).readsBodyChannel = false ∧
    deliveredBodyChunks
      (HandleNonCachedResponse ⟨"Cache-Status"⟩
        ⟨0, [], 200, [("Cache-Control", ["private"])],
          .ok false 0, true⟩)
      [[72, 101, 108, 108, 111]] = [] := by
  decide

/-- C7: evaluated at a cacheable response whose body-buffer creation
(`Cache.NewContent`) fails, `HandleNonCachedResponse` returns the error,
so (per the spec-modelled `get_or_compute`) nothing is inserted — but,
contrary to the claim, no task reads the body channel, so the downstream
does not receive the upstream's body bytes. -/
theorem storage_failure_no_insert_no_body :
    (HandleNonCachedResponse ⟨""⟩
      ⟨0, [], 200, [("Cache-Control", ["public; max-age=3600"])],
        .ok true 3600, false⟩).isError = true ∧
    (HandleNonCachedResponse ⟨""⟩
      ⟨0, [], 200, [("Cache-Control", ["public; max-age=3600"])],
        .ok true 3600, false⟩).entry = none ∧
    getOrSetInserts
      (HandleNonCachedResponse ⟨""⟩
        ⟨0, [], 200, [("Cache-Control", ["public; max-age=3600"])],
          .ok true 3600, false⟩) = false ∧
    deliveredBodyChunks
      (HandleNonCachedResponse ⟨""⟩
        ⟨0, [], 200, [("Cache-Control", ["public; max-age=3600"])],
          .ok true 3600, false⟩) [[83, 111]] = [] ∧
    deliveredBodyChunks
      (HandleNonCachedResponse ⟨""⟩
        ⟨0, [], 200, [("Cache-Control", ["public; max-age=3600"])],
          .ok true 3600, false⟩) [[83, 111]] ≠ [[83, 111]] := by
  decide

/-- C3 counterexample: with status header `Cache-Status` configured and
an upstream response that itself emits `Cache-Status: x`, the entry built
by `HandleNonCachedResponse` stores the headers *with* the status header
(the claim says it is stripped before storing — `RemoveStatusHeaderIfConfigured`
would have removed it but is never invoked), and replaying a hit then
tags the response twice (`["hit", "x"]`). -/
theorem statusHeader_not_stripped_counterexample :
    Option.map (fun e => e.Response.HeaderMap)
      (HandleNonCachedResponse ⟨"Cache-Status"⟩
        ⟨0, [], 200, [("Cache-Status", ["x"]), ("A", ["1"])],
          .ok true 3600, true⟩).entry =
      some [("Cache-Status", ["x"]), ("A", ["1"])] ∧
    RemoveStatusHeaderIfConfigured ⟨"Cache-Status"⟩
        [("Cache-Status", ["x"]), ("A", ["1"])] = [("A", ["1"])] ∧
    hdrLookup (HandleCachedResponse ⟨"Cache-Status"⟩ []
        ⟨true, 3600, ⟨[]⟩,
          ⟨[("Cache-Status", ["x"]), ("A", ["1"])], 200, true⟩⟩).1
      "Cache-Status" = some ["hit", "x"] := by
  decide

/-- C3 amended: a hit served onto a fresh downstream writer delivers, for
every header name other than the configured status header, exactly the
stored entry's value list; the stored headers are the upstream's header
map as cloned at header-delivery time (value-identical to it), with no
stripping applied. -/
theorem hit_headers_roundtrip (cfg : Config) (e : HttpCacheEntry)
    (name : String)
    (hnodup : (e.Response.HeaderMap.map Prod.fst).Nodup)
    (hvals : ∀ kv ∈ e.Response.HeaderMap, kv.2 ≠ [])
    (hname : name ≠ cfg.statusHeader) :
    hdrLookup (HandleCachedResponse cfg [] e).1 name =
      hdrLookup e.Response.HeaderMap name ∧
    cloneHeader e.Response.HeaderMap = e.Response.HeaderMap := by
  refine ⟨?_, cloneHeader_eq _⟩
  have hw1 : hdrLookup (AddStatusHeaderIfConfigured cfg [] "hit") name =
      none := by
    unfold AddStatusHeaderIfConfigured
    by_cases hsh : cfg.statusHeader ≠ ""
    · rw [if_pos hsh, hdrLookup_set_ne _ _ _ _ hname]
      rfl
    · rw [if_neg hsh]
      rfl
  show hdrLookup (addAllHeaders (AddStatusHeaderIfConfigured cfg [] "hit")
      e.Response.HeaderMap) name = _
  rw [hdrLookup_addAllHeaders e.Response.HeaderMap name _ hnodup hvals]
  cases hm : hdrLookup e.Response.HeaderMap name with
  | none => exact hw1
  | some vs => rw [hw1]; rfl

/-- C3 witness: concrete instantiation of `hit_headers_roundtrip` at a
two-header stored map and the name `A` with status header
`Cache-Status`. -/
theorem hit_headers_roundtrip_witness :
    ((([("A", ["1", "2"]), ("B", ["3"])] : HeaderMap).map Prod.fst).Nodup ∧
      (∀ kv ∈ ([("A", ["1", "2"]), ("B", ["3"])] : HeaderMap),
        kv.2 ≠ []) ∧
      ("A" : String) ≠ "Cache-Status") ∧
    (hdrLookup (HandleCachedResponse ⟨"Cache-Status"⟩ []
        ⟨true, 0, ⟨[]⟩,
          ⟨[("A", ["1", "2"]), ("B", ["3"])], 200, true⟩⟩).1 "A" =
      hdrLookup [("A", ["1", "2"]), ("B", ["3"])] "A" ∧
     cloneHeader [("A", ["1", "2"]), ("B", ["3"])] =
      [("A", ["1", "2"]), ("B", ["3"])]) :=
  ⟨⟨by decide, by decide, by decide⟩,
   hit_headers_roundtrip ⟨"Cache-Status"⟩
     ⟨true, 0, ⟨[]⟩, ⟨[("A", ["1", "2"]), ("B", ["3"])], 200, true⟩⟩ "A"
     (by decide) (by decide) (by decide)⟩

/-- C4 counterexample: an entry whose response carries `Vary: *` is
matched by `matchesRequest` for a request where both the stored and the
current request lack a header literally named `*` — the claim says a Vary
value of `*` forbids matching any request. -/
theorem vary_star_matches_counterexample :
    matchesRequest []
      ⟨false, 0, ⟨[]⟩, ⟨[("Vary", ["*"])], 200, false⟩⟩ = true := by
  decide

/-- C4 amended: `matchesRequest` returns true iff for every
comma-separated, whitespace-trimmed name in the first value of the
entry's `Vary` response header the stored request's value list equals the
current request's (an entry with no `Vary` matches everything); `*` gets
no special treatment here — it is compared as an ordinary header name,
the `Vary: *` exclusion being enforced by response-level cacheability
instead. -/
theorem matchesRequest_characterization (r : HeaderMap)
    (e : HttpCacheEntry) :
    matchesRequest r e = true ↔
      ∀ vs, hdrLookup e.Response.HeaderMap "Vary" = some vs →
        ∀ s ∈ goSplitComma (vs.headD ""),
          hdrLookup e.Request.HeaderMap (goTrim s) =
            hdrLookup r (goTrim s) := by
  unfold matchesRequest
  cases h : hdrLookup e.Response.HeaderMap "Vary" with
  | none =>
    simp only [true_iff]
    intro vs hvs
    exact Option.noConfusion hvs
  | some vs =>
    simp only [List.all_eq_true]
    constructor
    · intro hall vs' hvs' s hs
      have hv := Option.some.inj hvs'
      subst hv
      exact beq_iff_eq.mp (hall s hs)
    · intro hall s hs
      exact beq_iff_eq.mpr (hall vs rfl s hs)

/-- C4 amended, instantiated: the `Vary: Accept-Encoding` entry from the
repository's tests, matched against an equal-encoding request. -/
theorem matchesRequest_characterization_witness :
    matchesRequest [("Accept-Encoding", ["gzip"])]
        ⟨true, 0, ⟨[("Accept-Encoding", ["gzip"])]⟩,
          ⟨[("Vary", ["Accept-Encoding"])], 200, true⟩⟩ = true ↔
      ∀ vs, hdrLookup
          ([("Vary", ["Accept-Encoding"])] : HeaderMap) "Vary" = some vs →
        ∀ s ∈ goSplitComma (vs.headD ""),
          hdrLookup ([("Accept-Encoding", ["gzip"])] : HeaderMap)
              (goTrim s) =
            hdrLookup ([("Accept-Encoding", ["gzip"])] : HeaderMap)
              (goTrim s) :=
  matchesRequest_characterization [("Accept-Encoding", ["gzip"])]
    ⟨true, 0, ⟨[("Accept-Encoding", ["gzip"])]⟩,
      ⟨[("Vary", ["Accept-Encoding"])], 200, true⟩⟩

/-- C5: over any sequence of upstream operations on a fresh recorder,
exactly one `(status, headers)` event is sent on the header channel and
exactly one status write reaches the downstream writer — one each if any
`WriteHeader` or `Write` occurs, none otherwise — and `WriteHeader` on a
recorder that already wrote its header is a complete no-op. -/
theorem header_delivery_single_shot (ops : List RecOp)
    (hdr0 : HeaderMap) :
    countHeaderEv (recRun ⟨false, hdr0⟩ ops).2 =
      (if ops.any isTrigger then 1 else 0) ∧
    countDsStatus (recRun ⟨false, hdr0⟩ ops).2 =
      (if ops.any isTrigger then 1 else 0) ∧
    (∀ hdr : HeaderMap, ∀ c : Nat,
      StreamedRecorder.WriteHeader ⟨true, hdr⟩ c = (⟨true, hdr⟩, [])) := by
  obtain ⟨h1, h2, _⟩ := recRun_counts ops ⟨false, hdr0⟩
  refine ⟨by simpa using h1, by simpa using h2, ?_⟩
  intro hdr c
  rfl

/-- C6: in the event trace of any operation sequence on a fresh recorder,
at every instant (every take-prefix of the trace) the chunks already
written to the downstream client form a prefix of the chunks already
published on the body channel: no downstream byte precedes its handoff to
the recording side. -/
theorem body_published_before_downstream (ops : List RecOp)
    (hdr0 : HeaderMap) (n : Nat) :
    dsChunks (((recRun ⟨false, hdr0⟩ ops).2).take n) <+:
      bodyChunks (((recRun ⟨false, hdr0⟩ ops).2).take n) :=
  (recRun_streamOrdered ops ⟨false, hdr0⟩).1 n

/-- C8: after `MemoryData.Close`, `GetReader` returns a `bytes.NewReader`
snapshot over the frozen byte vector; reading it to exhaustion with any
positive-capacity buffer yields exactly the bytes written before close,
in order, and the next read reports end-of-stream. -/
theorem closed_getReader_snapshot_drains (buff : MemoryData)
    (chunks : List (List Nat)) (cap : Nat) (hcap : 1 ≤ cap) :
    ((writeAll buff chunks).1.Close).1.GetReader =
      (GoReader.snapshot (buff.content.data ++ chunks.flatten) 0,
       ((writeAll buff chunks).1.Close).1) ∧
    drainSnapshot (buff.content.data ++ chunks.flatten) cap 0 =
      buff.content.data ++ chunks.flatten ∧
    snapshotRead (buff.content.data ++ chunks.flatten)
      (buff.content.data ++ chunks.flatten).length cap = ([], 0, true) := by
  refine ⟨?_, ?_, ?_⟩
  · rw [writeAll_state]
    rfl
  · rw [drainSnapshot_drop _ _ hcap 0]
    exact List.drop_zero _
  · simp [snapshotRead]

/-- C8 witness: writing `[1,2]` then `[3]`, closing, and draining the
snapshot reader with a capacity-1 buffer yields `[1,2,3]`. -/
theorem closed_getReader_snapshot_drains_witness :
    1 ≤ 1 ∧
    (((writeAll ⟨⟨[]⟩, 0, false⟩ [[1, 2], [3]]).1.Close).1.GetReader =
      (GoReader.snapshot (([] : List Nat) ++
         ([[1, 2], [3]] : List (List Nat)).flatten) 0,
       ((writeAll ⟨⟨[]⟩, 0, false⟩ [[1, 2], [3]]).1.Close).1) ∧
     drainSnapshot (([] : List Nat) ++
        ([[1, 2], [3]] : List (List Nat)).flatten) 1 0 =
      ([] : List Nat) ++ ([[1, 2], [3]] : List (List Nat)).flatten ∧
     snapshotRead (([] : List Nat) ++
        ([[1, 2], [3]] : List (List Nat)).flatten)
       (([] : List Nat) ++
         ([[1, 2], [3]] : List (List Nat)).flatten).length 1 =
      ([], 0, true)) :=
  ⟨by decide,
   closed_getReader_snapshot_drains ⟨⟨[]⟩, 0, false⟩ [[1, 2], [3]] 1
     (by decide)⟩

/-- C9: the header-channel event carries a reference to a freshly
allocated deep clone of the downstream writer's header map: the fresh
reference differs from the downstream's, the clone holds the map's
content at emission time, and a later `Header().Set` through the
downstream reference leaves the event's map unchanged. -/
theorem header_event_clone_immune (hp : HeaderHeap) (w : Nat)
    (hw : w < hp.cells.length) (k v : String) :
    (allocClone hp w).2 ≠ w ∧
    heapGet (allocClone hp w).1 (allocClone hp w).2 =
      some (cloneHeader (hp.cells.getD w [])) ∧
    heapGet (heapSet (allocClone hp w).1 w k v) (allocClone hp w).2 =
      heapGet (allocClone hp w).1 (allocClone hp w).2 := by
  refine ⟨?_, heapGet_allocClone hp w, ?_⟩
  · exact fun he => absurd he.symm (Nat.ne_of_lt hw)
  · exact heapGet_heapSet_ne _ _ _ _ _ (Nat.ne_of_lt hw)

/-- C9 witness: a one-cell heap holding `A: 1`; after the clone is
emitted, setting `A: 2` through the downstream reference leaves the
event's map at `A: 1`. -/
theorem header_event_clone_immune_witness :
    0 < 1 ∧
    ((allocClone ⟨[[("A", ["1"])]]⟩ 0).2 ≠ 0 ∧
     heapGet (allocClone ⟨[[("A", ["1"])]]⟩ 0).1
        (allocClone ⟨[[("A", ["1"])]]⟩ 0).2 =
      some (cloneHeader (([[("A", ["1"])]] : List HeaderMap).getD 0 [])) ∧
     heapGet (heapSet (allocClone ⟨[[("A", ["1"])]]⟩ 0).1 0 "A" "2")
        (allocClone ⟨[[("A", ["1"])]]⟩ 0).2 =
      heapGet (allocClone ⟨[[("A", ["1"])]]⟩ 0).1
        (allocClone ⟨[[("A", ["1"])]]⟩ 0).2) :=
  ⟨by decide, header_event_clone_immune ⟨[[("A", ["1"])]]⟩ 0 (by decide)
    "A" "2"⟩

/-- C10: `MemoryData.Write` never fails: every write in any sequence of
writes appends its chunk to the byte vector and returns `(len(p), nil)`;
there is no error path. -/
theorem memoryData_write_never_fails (buff : MemoryData)
    (chunks : List (List Nat)) :
    (writeAll buff chunks).2 =
      chunks.map (fun p => (p.length, none)) ∧
    (writeAll buff chunks).1.content.data =
      buff.content.data ++ chunks.flatten ∧
    (∀ p, MemoryData.Write buff p =
      ({ buff with content := ⟨buff.content.data ++ p⟩ },
       p.length, none)) := by
  refine ⟨writeAll_results _ _, ?_, fun p => rfl⟩
  rw [writeAll_state]

end CaddyCache
